import Mathlib

/-!
# Verification of the laovdb core tree specification

The repository's core sparse-volume tree (`Coord`/`CoordBBox`, `LeafNode`,
`InternalNode`, `RootNode`, `Tree`, `ValueAccessor`, and the composite tools
built on them) is exercised here through a shallow embedding.  The concrete
headers implementing the tree are not part of the source snapshot (only unit
tests and peripheral files are), so the embedding is modelled from the design
specification, with every concrete expected value cross-checked against the
unit tests that are present (`TestValueAccessor.cc`, `TestTreeCombine.cc`,
`TestGridBbox.cc`, `TestCoord.cc`, `TestCount.cc`, `TestInternalOrigin`).

The modelled configuration is the default `Tree4<T,5,4,3>`: a root node over
internal nodes of log2dim 5 (dimension 4096 in voxel units), internal nodes of
log2dim 4 (dimension 128), and leaf nodes of log2dim 3 (dimension 8).
-/

set_option autoImplicit false

/-- Modelled from the spec: `Coord` is a 3-tuple of signed 32-bit integers
`(x,y,z)` with component-wise arithmetic.  Components are embedded as
unbounded `Int`; the 32-bit range plays a role only for the `CoordBBox`
sentinels and volume computation, where it is made explicit. -/
structure Coord where
  x : Int
  y : Int
  z : Int
deriving DecidableEq, Repr

/-- Component-wise addition on coordinates. -/
def Coord.add (a b : Coord) : Coord := ⟨a.x + b.x, a.y + b.y, a.z + b.z⟩

/-- Component-wise minimum of two coordinates. -/
def Coord.minComp (a b : Coord) : Coord := ⟨min a.x b.x, min a.y b.y, min a.z b.z⟩

/-- Component-wise maximum of two coordinates. -/
def Coord.maxComp (a b : Coord) : Coord := ⟨max a.x b.x, max a.y b.y, max a.z b.z⟩

/-- Align one component down to a multiple of `d`.  The source computes node
origins by masking the low bits of the two's-complement representation
(`v & ~(dim-1)`), which for a power-of-two `d` equals `v - v.emod d`. -/
def alignDown (d v : Int) : Int := v - v.emod d

/-- Modelled from the spec: the origin of the node of dimension `d` covering a
coordinate, computed by masking the low bits of each component. -/
def nodOrigin (d : Int) (c : Coord) : Coord :=
  ⟨alignDown d c.x, alignDown d c.y, alignDown d c.z⟩

/-- Leaf dimension of the default tree: `2^3 = 8`. -/
def leafDim : Int := 8

/-- Dimension of the lower internal node (log2dim 4 over 8-wide leaves):
`16 * 8 = 128`. -/
def internal2Dim : Int := 128

/-- Dimension of the upper internal node (log2dim 5 over 128-wide internal
nodes): `32 * 128 = 4096`. -/
def internal1Dim : Int := 4096

/-- The origin of the leaf node covering a coordinate. -/
def leafOrigin (c : Coord) : Coord := nodOrigin leafDim c

/-- The coordinate of a voxel relative to the origin of its leaf: each
component lies in `[0, 8)`. -/
def localCoord (c : Coord) : Coord := ⟨c.x.emod leafDim, c.y.emod leafDim, c.z.emod leafDim⟩

/-- Modelled from the spec: a `LeafNode` body — a dense buffer of
`(2^Log2Dim)^3` values plus a parallel bitmask marking which voxels are
active.  The buffer and mask are indexed by the local coordinate. -/
structure LeafBuf (V : Type) where
  buf : Coord → V
  mask : Coord → Bool

/-- A leaf freshly created during a write: uniformly the background value,
fully inactive (spec §4.3: a newly created node is initialized to the tree's
current background, fully inactive). -/
def LeafBuf.fresh {V : Type} (background : V) : LeafBuf V :=
  ⟨fun _ => background, fun _ => false⟩

/-- Modelled from the spec: the voxel-level state of a `Tree`.  The tree owns
a background value and a collection of leaf nodes keyed by leaf origin; the
internal-node levels are recovered from the leaf origins by alignment (the
modelled operations never create tiles, so every internal node present is
exactly one with a leaf descendant). -/
structure VTree (V : Type) where
  background : V
  leaves : List (Coord × LeafBuf V)

/-- A freshly constructed tree with the given background: no nodes below the
root. -/
def VTree.mk0 {V : Type} (background : V) : VTree V := ⟨background, []⟩

/-- Look up the leaf with the given origin. -/
def findLeaf {V : Type} : List (Coord × LeafBuf V) → Coord → Option (LeafBuf V)
  | [], _ => none
  | (o, lf) :: rest, key => if o = key then some lf else findLeaf rest key

/-- Rewrite the first leaf with the given origin in place. -/
def updateLeaf {V : Type} : List (Coord × LeafBuf V) → Coord → (LeafBuf V → LeafBuf V) → List (Coord × LeafBuf V)
  | [], _, _ => []
  | (o, lf) :: rest, key, f => if o = key then (o, f lf) :: rest else (o, lf) :: updateLeaf rest key f

/-- Modelled from the spec: `Tree::getValue(coord)` — descend from the root;
return the stored voxel value when the coordinate lies in a leaf, the
background otherwise. -/
def VTree.getValue {V : Type} (t : VTree V) (c : Coord) : V :=
  match findLeaf t.leaves (leafOrigin c) with
  | some lf => lf.buf (localCoord c)
  | none => t.background

/-- Modelled from the spec: `Tree::isValueOn(coord)` — the active state of the
voxel; coordinates not covered by any node are inactive. -/
def VTree.isValueOn {V : Type} (t : VTree V) (c : Coord) : Bool :=
  match findLeaf t.leaves (leafOrigin c) with
  | some lf => lf.mask (localCoord c)
  | none => false

/-- Modelled from the spec: `Tree::probeValue(coord, &out)` — returns the
active state and writes the value at the coordinate. -/
def VTree.probeValue {V : Type} (t : VTree V) (c : Coord) : Bool × V :=
  (t.isValueOn c, t.getValue c)

/-- Write `v` into the leaf covering `c` (materializing the leaf from the
background when absent, spec §4.2 densify-on-write) and update the active
mask to `act`. -/
def VTree.writeVoxel {V : Type} (t : VTree V) (c : Coord) (v : V) (act : Bool) : VTree V :=
  match findLeaf t.leaves (leafOrigin c) with
  | some _ =>
    ⟨t.background, updateLeaf t.leaves (leafOrigin c) (fun lf =>
      ⟨Function.update lf.buf (localCoord c) v, Function.update lf.mask (localCoord c) act⟩)⟩
  | none =>
    ⟨t.background,
      (leafOrigin c, ⟨Function.update (LeafBuf.fresh t.background).buf (localCoord c) v,
           Function.update (LeafBuf.fresh t.background).mask (localCoord c) act⟩) :: t.leaves⟩

/-- Modelled from the spec: `Tree::setValue(coord, v)` — store the value and
mark the voxel active (implies active = true). -/
def VTree.setValue {V : Type} (t : VTree V) (c : Coord) (v : V) : VTree V :=
  t.writeVoxel c v true

/-- Modelled from the spec: the one-argument `Tree::setValueOn(coord)` — mark
the voxel active without changing its value (a previously unrepresented voxel
keeps the background value). -/
def VTree.setActiveOn {V : Type} (t : VTree V) (c : Coord) : VTree V :=
  t.writeVoxel c (t.getValue c) true

/-- Modelled from the spec: the two-argument `Tree::setValueOn(coord, v)` —
identical to `setValue`. -/
def VTree.setValueOn {V : Type} (t : VTree V) (c : Coord) (v : V) : VTree V :=
  t.setValue c v

/-- Modelled from the spec: `Tree::setValueOnly(coord, v)` — store the value
without touching the active mask. -/
def VTree.setValueOnly {V : Type} (t : VTree V) (c : Coord) (v : V) : VTree V :=
  match findLeaf t.leaves (leafOrigin c) with
  | some _ =>
    ⟨t.background, updateLeaf t.leaves (leafOrigin c) (fun lf =>
      ⟨Function.update lf.buf (localCoord c) v, lf.mask⟩)⟩
  | none =>
    ⟨t.background,
      (leafOrigin c, ⟨Function.update (LeafBuf.fresh t.background).buf (localCoord c) v,
           (LeafBuf.fresh t.background).mask⟩) :: t.leaves⟩

/-- Modelled from the spec: `Tree::setValueOff(coord, v)` — store the value
with active = false.  Writing the background value to an unrepresented region
is a no-op (spec §4.1: such a write is indistinguishable from never written);
otherwise the leaf is materialized first. -/
def VTree.setValueOff {V : Type} [DecidableEq V] (t : VTree V) (c : Coord) (v : V) : VTree V :=
  match findLeaf t.leaves (leafOrigin c) with
  | some _ => t.writeVoxel c v false
  | none => if v = t.background then t else t.writeVoxel c v false

/-- `Tree::leafCount()`: the number of leaf nodes. -/
def VTree.leafCount {V : Type} (t : VTree V) : Nat := t.leaves.length

/-- `Tree::nonLeafCount()`: the root node plus the internal nodes at both
levels; since the modelled operations never create tiles, an internal node is
present exactly when some leaf origin aligns into it. -/
def VTree.nonLeafCount {V : Type} (t : VTree V) : Nat :=
  1 + ((t.leaves.map (fun e => nodOrigin internal1Dim e.1)).dedup).length
    + ((t.leaves.map (fun e => nodOrigin internal2Dim e.1)).dedup).length

/-! ## Basic lemmas about leaf lookup and update -/

theorem findLeaf_updateLeaf_self {V : Type} (l : List (Coord × LeafBuf V)) (key : Coord)
    (f : LeafBuf V → LeafBuf V) :
    findLeaf (updateLeaf l key f) key = (findLeaf l key).map f := by
  induction l with
  | nil => rfl
  | cons hd tl ih =>
    obtain ⟨o, lf⟩ := hd
    by_cases h : o = key <;> simp [findLeaf, updateLeaf, h, ih]

theorem findLeaf_updateLeaf_ne {V : Type} (l : List (Coord × LeafBuf V)) (key key' : Coord)
    (f : LeafBuf V → LeafBuf V) (h : key' ≠ key) :
    findLeaf (updateLeaf l key f) key' = findLeaf l key' := by
  induction l with
  | nil => rfl
  | cons hd tl ih =>
    obtain ⟨o, lf⟩ := hd
    by_cases ho : o = key
    · subst ho
      simp [findLeaf, updateLeaf, Ne.symm h]
    · simp only [updateLeaf, if_neg ho]
      by_cases ho' : o = key' <;> simp [findLeaf, ho', ih]

theorem updateLeaf_keys {V : Type} (l : List (Coord × LeafBuf V)) (key : Coord)
    (f : LeafBuf V → LeafBuf V) :
    (updateLeaf l key f).map Prod.fst = l.map Prod.fst := by
  induction l with
  | nil => rfl
  | cons hd tl ih =>
    obtain ⟨o, lf⟩ := hd
    by_cases h : o = key <;> simp [updateLeaf, h, ih]

/-- A coordinate is determined by its leaf origin together with its local
coordinate (`alignDown 8 v + v.emod 8 = v` in each component). -/
theorem coord_eq_of_origin_local {c c' : Coord}
    (h1 : leafOrigin c = leafOrigin c') (h2 : localCoord c = localCoord c') : c = c' := by
  obtain ⟨x, y, z⟩ := c
  obtain ⟨x', y', z'⟩ := c'
  simp only [leafOrigin, nodOrigin, alignDown, localCoord, leafDim, Coord.mk.injEq] at h1 h2
  simp only [Coord.mk.injEq]
  omega

/-! ## Point-wise behaviour of the write operations -/

theorem getValue_writeVoxel_self {V : Type} (t : VTree V) (c : Coord) (v : V) (act : Bool) :
    (t.writeVoxel c v act).getValue c = v := by
  unfold VTree.writeVoxel VTree.getValue
  cases h : findLeaf t.leaves (leafOrigin c) with
  | some lf => simp [findLeaf_updateLeaf_self, h]
  | none => simp [findLeaf]

theorem isValueOn_writeVoxel_self {V : Type} (t : VTree V) (c : Coord) (v : V) (act : Bool) :
    (t.writeVoxel c v act).isValueOn c = act := by
  unfold VTree.writeVoxel VTree.isValueOn
  cases h : findLeaf t.leaves (leafOrigin c) with
  | some lf => simp [findLeaf_updateLeaf_self, h]
  | none => simp [findLeaf]

theorem getValue_writeVoxel_ne {V : Type} (t : VTree V) (c c' : Coord) (v : V) (act : Bool)
    (hne : c' ≠ c) :
    (t.writeVoxel c v act).getValue c' = t.getValue c' := by
  unfold VTree.writeVoxel VTree.getValue
  by_cases ho : leafOrigin c' = leafOrigin c
  · have hl : localCoord c' ≠ localCoord c := fun hl => hne (coord_eq_of_origin_local ho hl)
    cases h : findLeaf t.leaves (leafOrigin c) with
    | some lf =>
      rw [ho, h]
      simp [findLeaf_updateLeaf_self, h, Function.update, hl]
    | none =>
      rw [ho, h]
      simp [findLeaf, Function.update, hl, LeafBuf.fresh]
  · cases h : findLeaf t.leaves (leafOrigin c) with
    | some lf => simp [findLeaf_updateLeaf_ne _ _ _ _ ho]
    | none => simp [findLeaf, if_neg (fun hc : leafOrigin c = leafOrigin c' => ho hc.symm)]

theorem isValueOn_writeVoxel_ne {V : Type} (t : VTree V) (c c' : Coord) (v : V) (act : Bool)
    (hne : c' ≠ c) :
    (t.writeVoxel c v act).isValueOn c' = t.isValueOn c' := by
  unfold VTree.writeVoxel VTree.isValueOn
  by_cases ho : leafOrigin c' = leafOrigin c
  · have hl : localCoord c' ≠ localCoord c := fun hl => hne (coord_eq_of_origin_local ho hl)
    cases h : findLeaf t.leaves (leafOrigin c) with
    | some lf =>
      rw [ho, h]
      simp [findLeaf_updateLeaf_self, h, Function.update, hl]
    | none =>
      rw [ho, h]
      simp [findLeaf, Function.update, hl, LeafBuf.fresh]
  · cases h : findLeaf t.leaves (leafOrigin c) with
    | some lf => simp [findLeaf_updateLeaf_ne _ _ _ _ ho]
    | none => simp [findLeaf, if_neg (fun hc : leafOrigin c = leafOrigin c' => ho hc.symm)]

theorem getValue_setValueOnly_ne {V : Type} (t : VTree V) (c c' : Coord) (v : V)
    (hne : c' ≠ c) :
    (t.setValueOnly c v).getValue c' = t.getValue c' := by
  unfold VTree.setValueOnly VTree.getValue
  by_cases ho : leafOrigin c' = leafOrigin c
  · have hl : localCoord c' ≠ localCoord c := fun hl => hne (coord_eq_of_origin_local ho hl)
    cases h : findLeaf t.leaves (leafOrigin c) with
    | some lf =>
      rw [ho, h]
      simp [findLeaf_updateLeaf_self, h, Function.update, hl]
    | none =>
      rw [ho, h]
      simp [findLeaf, Function.update, hl, LeafBuf.fresh]
  · cases h : findLeaf t.leaves (leafOrigin c) with
    | some lf => simp [findLeaf_updateLeaf_ne _ _ _ _ ho]
    | none => simp [findLeaf, if_neg (fun hc : leafOrigin c = leafOrigin c' => ho hc.symm)]

/-- `setValueOnly` never changes any active state: leaves it already touches
keep their mask, and a leaf it materializes starts fully inactive. -/
theorem isValueOn_setValueOnly {V : Type} (t : VTree V) (c c' : Coord) (v : V) :
    (t.setValueOnly c v).isValueOn c' = t.isValueOn c' := by
  unfold VTree.setValueOnly VTree.isValueOn
  by_cases ho : leafOrigin c' = leafOrigin c
  · cases h : findLeaf t.leaves (leafOrigin c) with
    | some lf =>
      rw [ho, h]
      simp [findLeaf_updateLeaf_self, h]
    | none =>
      rw [ho, h]
      simp [findLeaf, LeafBuf.fresh]
  · cases h : findLeaf t.leaves (leafOrigin c) with
    | some lf => simp [findLeaf_updateLeaf_ne _ _ _ _ ho]
    | none => simp [findLeaf, if_neg (fun hc : leafOrigin c = leafOrigin c' => ho hc.symm)]

/-! ## Sequences of setValue-family writes -/

/-- A `setValue`-family call, as enumerated by the spec's tree contract:
`setValue(c, v)`, one-argument `setValueOn(c)`, `setValueOnly(c, v)` and
`setValueOff(c, v)`. -/
inductive WriteOp (V : Type) where
  | setV (c : Coord) (v : V)
  | setVOn (c : Coord)
  | setVOnly (c : Coord) (v : V)
  | setVOff (c : Coord) (v : V)
deriving DecidableEq

/-- The coordinate a write targets. -/
def WriteOp.wcoord {V : Type} : WriteOp V → Coord
  | .setV c _ => c
  | .setVOn c => c
  | .setVOnly c _ => c
  | .setVOff c _ => c

/-- Apply one `setValue`-family call to the tree. -/
def VTree.applyWrite {V : Type} [DecidableEq V] (t : VTree V) : WriteOp V → VTree V
  | .setV c v => t.setValue c v
  | .setVOn c => t.setActiveOn c
  | .setVOnly c v => t.setValueOnly c v
  | .setVOff c v => t.setValueOff c v

/-- Apply a sequence of `setValue`-family calls, first element first. -/
def VTree.runWrites {V : Type} [DecidableEq V] (t : VTree V) : List (WriteOp V) → VTree V
  | [] => t
  | op :: ops => (t.applyWrite op).runWrites ops

/-- A write to a different coordinate changes neither the value nor the
active state at `c`. -/
theorem applyWrite_frame {V : Type} [DecidableEq V] (t : VTree V) (op : WriteOp V) (c : Coord)
    (h : op.wcoord ≠ c) :
    (t.applyWrite op).getValue c = t.getValue c ∧
    (t.applyWrite op).isValueOn c = t.isValueOn c := by
  cases op with
  | setV c0 v =>
    have hne : c ≠ c0 := fun hc => h (by simpa [WriteOp.wcoord] using hc.symm)
    exact ⟨getValue_writeVoxel_ne t c0 c v true hne, isValueOn_writeVoxel_ne t c0 c v true hne⟩
  | setVOn c0 =>
    have hne : c ≠ c0 := fun hc => h (by simpa [WriteOp.wcoord] using hc.symm)
    exact ⟨getValue_writeVoxel_ne t c0 c _ true hne, isValueOn_writeVoxel_ne t c0 c _ true hne⟩
  | setVOnly c0 v =>
    have hne : c ≠ c0 := fun hc => h (by simpa [WriteOp.wcoord] using hc.symm)
    exact ⟨getValue_setValueOnly_ne t c0 c v hne, isValueOn_setValueOnly t c0 c v⟩
  | setVOff c0 v =>
    have hne : c ≠ c0 := fun hc => h (by simpa [WriteOp.wcoord] using hc.symm)
    show ((t.setValueOff c0 v).getValue c = t.getValue c) ∧
         ((t.setValueOff c0 v).isValueOn c = t.isValueOn c)
    rw [VTree.setValueOff]
    cases hf : findLeaf t.leaves (leafOrigin c0) with
    | some lf =>
      exact ⟨getValue_writeVoxel_ne t c0 c v false hne, isValueOn_writeVoxel_ne t c0 c v false hne⟩
    | none =>
      by_cases hv : v = t.background
      · simp [hv]
      · simp only [if_neg hv]
        exact ⟨getValue_writeVoxel_ne t c0 c v false hne,
               isValueOn_writeVoxel_ne t c0 c v false hne⟩

/-- Writes that avoid `c` leave the voxel at `c` untouched. -/
theorem runWrites_frame {V : Type} [DecidableEq V] (t : VTree V) (ops : List (WriteOp V))
    (c : Coord) (h : ∀ op ∈ ops, op.wcoord ≠ c) :
    (t.runWrites ops).getValue c = t.getValue c ∧
    (t.runWrites ops).isValueOn c = t.isValueOn c := by
  induction ops generalizing t with
  | nil => exact ⟨rfl, rfl⟩
  | cons op ops ih =>
    have hop := applyWrite_frame t op c (h op (List.mem_cons_self op ops))
    have hrest := ih (t.applyWrite op) (fun o ho => h o (List.mem_cons_of_mem op ho))
    exact ⟨hrest.1.trans hop.1, hrest.2.trans hop.2⟩

/-- C1.  Set/get round-trip: for every tree, every coordinate `c` (negative
components included) and every value `v`, after `tree.setValue(c, v)` the
voxel reads back `getValue(c) = v` with `isValueOn(c) = true`, and this
remains the value read as long as no later `setValue`-family call targets
`c` — i.e. `getValue` reproduces the most recent `setValue`-family write for
that coordinate. -/
theorem setValue_getValue_roundTrip {V : Type} [DecidableEq V] (t : VTree V) (c : Coord)
    (v : V) (ops : List (WriteOp V)) (hops : ∀ op ∈ ops, op.wcoord ≠ c) :
    (((t.setValue c v).runWrites ops).getValue c = v) ∧
    (((t.setValue c v).runWrites ops).isValueOn c = true) := by
  have hframe := runWrites_frame (t.setValue c v) ops c hops
  exact ⟨hframe.1.trans (getValue_writeVoxel_self t c v true),
         hframe.2.trans (isValueOn_writeVoxel_self t c v true)⟩

/-- Witness for C1 at a concrete input: background 0, write 7 at the origin
(and a later write at a different, negative coordinate). -/
theorem setValue_getValue_roundTrip_witness :
    (∀ op ∈ [WriteOp.setV ⟨-9, 0, 8⟩ (5 : Int)], op.wcoord ≠ ⟨0, 0, 0⟩) ∧
    ((((VTree.mk0 (0 : Int)).setValue ⟨0, 0, 0⟩ 7).runWrites
        [WriteOp.setV ⟨-9, 0, 8⟩ 5]).getValue ⟨0, 0, 0⟩ = 7 ∧
     (((VTree.mk0 (0 : Int)).setValue ⟨0, 0, 0⟩ 7).runWrites
        [WriteOp.setV ⟨-9, 0, 8⟩ 5]).isValueOn ⟨0, 0, 0⟩ = true) :=
  ⟨by decide, setValue_getValue_roundTrip (VTree.mk0 0) ⟨0, 0, 0⟩ 7
      [WriteOp.setV ⟨-9, 0, 8⟩ 5] (by decide)⟩

/-- C2.  Background default: a freshly constructed tree with background `B`
answers every coordinate query (none is out of bounds) with the background
value and an inactive state. -/
theorem freshTree_background_default {V : Type} (B : V) (c : Coord) :
    (VTree.mk0 B).getValue c = B ∧ (VTree.mk0 B).isValueOn c = false :=
  ⟨rfl, rfl⟩

/-! ## Node topology: no implicit deletion, explicit pruning -/

theorem background_writeVoxel {V : Type} (t : VTree V) (c : Coord) (v : V) (act : Bool) :
    (t.writeVoxel c v act).background = t.background := by
  rw [VTree.writeVoxel]
  cases findLeaf t.leaves (leafOrigin c) <;> rfl

theorem background_setValueOff {V : Type} [DecidableEq V] (t : VTree V) (c : Coord) (v : V) :
    (t.setValueOff c v).background = t.background := by
  rw [VTree.setValueOff]
  cases findLeaf t.leaves (leafOrigin c) with
  | some lf => exact background_writeVoxel t c v false
  | none =>
    by_cases hv : v = t.background
    · simp [hv]
    · simp only [if_neg hv]
      exact background_writeVoxel t c v false

/-- The local coordinates of every voxel of an 8-wide leaf. -/
def leafLocals : List Coord :=
  (List.range 8).flatMap (fun x =>
    (List.range 8).flatMap (fun y =>
      (List.range 8).map (fun z => ⟨Int.ofNat x, Int.ofNat y, Int.ofNat z⟩)))

/-- `LeafNode::isConstant`-style check specialized to the pruning condition:
every voxel of the leaf holds the background value and is inactive. -/
def LeafBuf.isBackgroundOff {V : Type} [DecidableEq V] (lf : LeafBuf V) (bg : V) : Bool :=
  leafLocals.all (fun lc => decide (lf.buf lc = bg) && !lf.mask lc)

/-- Modelled from the spec: the explicit prune operation (`tools::prune`),
restricted to the case the claims exercise — a leaf all of whose voxels hold
the background value inactive collapses to a background tile, i.e. its table
entry (and with it any internal node left without descendants) disappears. -/
def VTree.pruneBackground {V : Type} [DecidableEq V] (t : VTree V) : VTree V :=
  ⟨t.background, t.leaves.filter (fun e => !(e.2.isBackgroundOff t.background))⟩

/-- C8.  No implicit node deletion: writing the background value with
active = false (`setValueOff(c, background)`) to a voxel of an existing leaf
leaves the node topology unchanged — `leafCount` and `nonLeafCount` are as
before the write.  Removal of the now background-constant nodes happens only
through the explicit prune operation: when every leaf of the written tree is
uniformly background-inactive, pruning leaves only the root node. -/
theorem setValueOff_background_preserves_topology {V : Type} [DecidableEq V]
    (t : VTree V) (c : Coord) (h : (findLeaf t.leaves (leafOrigin c)).isSome = true) :
    ((t.setValueOff c t.background).leafCount = t.leafCount ∧
     (t.setValueOff c t.background).nonLeafCount = t.nonLeafCount) ∧
    ((∀ e ∈ (t.setValueOff c t.background).leaves,
        e.2.isBackgroundOff t.background = true) →
      (t.setValueOff c t.background).pruneBackground.leafCount = 0 ∧
      (t.setValueOff c t.background).pruneBackground.nonLeafCount = 1) := by
  have hkeys : (t.setValueOff c t.background).leaves.map Prod.fst = t.leaves.map Prod.fst := by
    rw [VTree.setValueOff]
    cases hf : findLeaf t.leaves (leafOrigin c) with
    | some lf =>
      rw [VTree.writeVoxel]
      rw [hf]
      exact updateLeaf_keys t.leaves (leafOrigin c) _
    | none => simp [hf] at h
  constructor
  · constructor
    · have := congrArg List.length hkeys
      simpa [VTree.leafCount] using this
    · have hmm : ∀ (d : Int) (l : List (Coord × LeafBuf V)),
          l.map (fun e => nodOrigin d e.1) = (l.map Prod.fst).map (nodOrigin d) := by
        intro d l; rw [List.map_map]; rfl
      rw [VTree.nonLeafCount, VTree.nonLeafCount, hmm, hmm, hkeys, ← hmm, ← hmm]
  · intro hall
    have hbg : (t.setValueOff c t.background).background = t.background :=
      background_setValueOff t c t.background
    have hfilter : (t.setValueOff c t.background).leaves.filter
        (fun e => !(e.2.isBackgroundOff t.background)) = [] := by
      rw [List.filter_eq_nil_iff]
      intro e he
      simp [hall e he]
    constructor
    · simp [VTree.pruneBackground, VTree.leafCount, hbg, hfilter]
    · simp [VTree.pruneBackground, VTree.nonLeafCount, hbg, hfilter]

/-- Witness for C8, mirroring `testAccessorRegistration`: background 5, set a
voxel at `(5,10,20)` to −9, then reset it to the background with
`setValueOff`. -/
theorem setValueOff_background_preserves_topology_witness :
    ((findLeaf (((VTree.mk0 (5 : Int)).setValue ⟨5, 10, 20⟩ (-9)).leaves)
        (leafOrigin ⟨5, 10, 20⟩)).isSome = true) ∧
    (((((VTree.mk0 (5 : Int)).setValue ⟨5, 10, 20⟩ (-9)).setValueOff ⟨5, 10, 20⟩
          ((VTree.mk0 (5 : Int)).setValue ⟨5, 10, 20⟩ (-9)).background).leafCount
        = (((VTree.mk0 (5 : Int)).setValue ⟨5, 10, 20⟩ (-9))).leafCount ∧
      ((((VTree.mk0 (5 : Int)).setValue ⟨5, 10, 20⟩ (-9)).setValueOff ⟨5, 10, 20⟩
          ((VTree.mk0 (5 : Int)).setValue ⟨5, 10, 20⟩ (-9)).background).nonLeafCount
        = (((VTree.mk0 (5 : Int)).setValue ⟨5, 10, 20⟩ (-9))).nonLeafCount)) ∧
     ((∀ e ∈ (((VTree.mk0 (5 : Int)).setValue ⟨5, 10, 20⟩ (-9)).setValueOff ⟨5, 10, 20⟩
            ((VTree.mk0 (5 : Int)).setValue ⟨5, 10, 20⟩ (-9)).background).leaves,
          e.2.isBackgroundOff ((VTree.mk0 (5 : Int)).setValue ⟨5, 10, 20⟩ (-9)).background
            = true) →
        ((((VTree.mk0 (5 : Int)).setValue ⟨5, 10, 20⟩ (-9)).setValueOff ⟨5, 10, 20⟩
            ((VTree.mk0 (5 : Int)).setValue ⟨5, 10, 20⟩ (-9)).background).pruneBackground.leafCount
          = 0 ∧
         (((VTree.mk0 (5 : Int)).setValue ⟨5, 10, 20⟩ (-9)).setValueOff ⟨5, 10, 20⟩
            ((VTree.mk0 (5 : Int)).setValue ⟨5, 10, 20⟩ (-9)).background).pruneBackground.nonLeafCount
          = 1))) :=
  ⟨by decide, setValueOff_background_preserves_topology
      ((VTree.mk0 (5 : Int)).setValue ⟨5, 10, 20⟩ (-9)) ⟨5, 10, 20⟩ (by decide)⟩

/-! ## CoordBBox: canonical empty state, leaf bounding box, 64-bit volume -/

/-- The largest representable `Coord` component (`Int32` maximum). -/
def int32Max : Int := 2147483647

/-- The smallest representable `Coord` component (`Int32` minimum). -/
def int32Min : Int := -2147483648

/-- Modelled from the spec: `CoordBBox`, an axis-aligned box with INCLUSIVE
bounds `[bmin, bmax]`. -/
structure CoordBBox where
  bmin : Coord
  bmax : Coord
deriving DecidableEq, Repr

/-- Modelled from the spec: the canonical empty box — `bmin` at the type's
maximum representable coordinate and `bmax` at its minimum, not a boolean
flag. -/
def CoordBBox.empty0 : CoordBBox :=
  ⟨⟨int32Max, int32Max, int32Max⟩, ⟨int32Min, int32Min, int32Min⟩⟩

/-- Grow the box to include the inclusive leaf-sized box anchored at a leaf
origin (the far corner is `origin + (leafDim-1)` in each component). -/
def CoordBBox.includeLeafAt (bb : CoordBBox) (o : Coord) : CoordBBox :=
  ⟨bb.bmin.minComp o, bb.bmax.maxComp (o.add ⟨leafDim - 1, leafDim - 1, leafDim - 1⟩)⟩

/-- Modelled from the spec: `Tree::evalLeafBoundingBox()` — the tight
inclusive bound of the leaf-aligned boxes of all leaf nodes, the canonical
empty box when the tree has no leaf nodes. -/
def VTree.evalLeafBoundingBox {V : Type} (t : VTree V) : CoordBBox :=
  t.leaves.foldl (fun bb e => bb.includeLeafAt e.1) CoordBBox.empty0

/-- C5.  Leaf bounding-box inclusivity: on an 8-wide-leaf tree holding exactly
the two active voxels `(0,9,9)` and `(100,35,800)`, `evalLeafBoundingBox`
returns the leaf-aligned inclusive box `min = (0,8,8)`, `max = (103,39,807)`
(the far edge of each touched leaf, not just the touched voxel); a tree with
no leaf nodes reports the canonical empty box. -/
theorem evalLeafBoundingBox_two_voxels :
    (((VTree.mk0 (256 : Int)).setValue ⟨0, 9, 9⟩ 2).setValue
        ⟨100, 35, 800⟩ 3).evalLeafBoundingBox
      = ⟨⟨0, 8, 8⟩, ⟨103, 39, 807⟩⟩ ∧
    (VTree.mk0 (256 : Int)).evalLeafBoundingBox = CoordBBox.empty0 := by
  constructor
  · decide
  · rfl

/-- Modelled from the spec: `CoordBBox::volume()` — the product of the three
inclusive extents `bmax - bmin + 1`, carried out in the 64-bit unsigned
`Index64` type (reduction modulo `2^64` made explicit). -/
def CoordBBox.volume (b : CoordBBox) : Nat :=
  ((b.bmax.x - b.bmin.x + 1).toNat * (b.bmax.y - b.bmin.y + 1).toNat
    * (b.bmax.z - b.bmin.z + 1).toNat) % (2 ^ 64)

/-- C9.  64-bit volume: the inclusive box `[(0,0,0), (2^31-3, 2, 2)]` has
volume exactly `19327352814 = (2^31-2)·3·3`, a value that exceeds `2^32` and
would therefore be corrupted by 32-bit wraparound (its residue modulo `2^32`
differs from it). -/
theorem coordBBox_volume_64bit :
    (CoordBBox.mk ⟨0, 0, 0⟩ ⟨int32Max - 2, 2, 2⟩).volume = 19327352814 ∧
    2 ^ 32 ≤ (CoordBBox.mk ⟨0, 0, 0⟩ ⟨int32Max - 2, 2, 2⟩).volume ∧
    (CoordBBox.mk ⟨0, 0, 0⟩ ⟨int32Max - 2, 2, 2⟩).volume % (2 ^ 32)
      ≠ (CoordBBox.mk ⟨0, 0, 0⟩ ⟨int32Max - 2, 2, 2⟩).volume := by
  refine ⟨by decide, by decide, by decide⟩

/-! ## Leaf memory accounting -/

/-- Modelled from the spec: the memory-accounting state of a `LeafNode` —
fixed per-node bytes (origin, mask, buffer bookkeeping) plus the voxel buffer
bytes, which are resident only when the node is not out-of-core
(delay-loaded). -/
structure LeafMem where
  headerBytes : Nat
  bufferBytes : Nat
  outOfCore : Bool
deriving DecidableEq, Repr

/-- Modelled from the spec: `LeafNode::memUsage()` — the bytes actually
resident: the buffer contributes only when it is loaded. -/
def LeafMem.memUsage (l : LeafMem) : Nat :=
  l.headerBytes + (if l.outOfCore then 0 else l.bufferBytes)

/-- Modelled from the spec: `LeafNode::memUsageIfLoaded()` — the bytes the
node would use fully materialized. -/
def LeafMem.memUsageIfLoaded (l : LeafMem) : Nat :=
  l.headerBytes + l.bufferBytes

/-- C10.  For every leaf whose voxel buffer is resident (not out-of-core) the
two accounting figures agree, and whenever they diverge the leaf is
out-of-core — the figures differ only while data is out of core. -/
theorem memUsage_eq_memUsageIfLoaded_of_resident (l : LeafMem)
    (h : l.outOfCore = false) :
    l.memUsage = l.memUsageIfLoaded ∧
    ∀ l' : LeafMem, l'.memUsage ≠ l'.memUsageIfLoaded → l'.outOfCore = true := by
  constructor
  · simp [LeafMem.memUsage, LeafMem.memUsageIfLoaded, h]
  · intro l' hne
    cases hoc : l'.outOfCore with
    | false => exact absurd (by simp [LeafMem.memUsage, LeafMem.memUsageIfLoaded, hoc]) hne
    | true => rfl

/-- Witness for C10 at a concrete resident leaf (the byte figures of an
8-wide float leaf: 96 header bytes, 2048 buffer bytes). -/
theorem memUsage_eq_memUsageIfLoaded_of_resident_witness :
    ((LeafMem.mk 96 2048 false).outOfCore = false) ∧
    ((LeafMem.mk 96 2048 false).memUsage = (LeafMem.mk 96 2048 false).memUsageIfLoaded ∧
     ∀ l' : LeafMem, l'.memUsage ≠ l'.memUsageIfLoaded → l'.outOfCore = true) :=
  ⟨rfl, memUsage_eq_memUsageIfLoaded_of_resident (LeafMem.mk 96 2048 false) rfl⟩

/-! ## Tree combination: compDiv and its division-by-zero semantics -/

/-- Modelled from the spec: the combine family — given two trees, produce a
tree whose topology is the union of the inputs' topology and whose value at
each point is the functor's result (here over the two operand values, active
where either operand is active). -/
def combineTrees {V : Type} (op : V → V → V) (a b : VTree V) : VTree V :=
  ⟨op a.background b.background,
    ((a.leaves.map Prod.fst ++ b.leaves.map Prod.fst).dedup).map (fun o =>
      (o, ⟨fun lc => op (a.getValue (o.add lc)) (b.getValue (o.add lc)),
           fun lc => a.isValueOn (o.add lc) || b.isValueOn (o.add lc)⟩))⟩

/-- Modelled from the spec: `tools::compDiv(a, b)` — composite A/B over the
union of the two trees' topologies, with the per-type division operand
supplied separately.  Division by zero is not an error path in any case. -/
def compDiv {V : Type} (dv : V → V → V) (a b : VTree V) : VTree V :=
  combineTrees dv a b

/-- Modelled from the spec: the integer division operand of `compDiv` (§7):
a zero divisor produces the type's extreme sentinel value instead of
trapping, with `0/0` defined as `0`; `TestTreeCombine.cc`
(`testCompDivByZero`, the `-inf` expectations) fixes the negative sentinel to
the negated maximum `-Int32::max() = -2147483647`, one above the type
minimum.  Nonzero divisors use C truncated division. -/
def divInt32 (a b : Int) : Int :=
  if b ≠ 0 then Int.div a b
  else if a = 0 then 0
  else if 0 < a then int32Max else -int32Max

/-- `UInt32` (`Index32`) maximum. -/
def uint32Max : Nat := 4294967295

/-- Modelled from the spec: the unsigned integer division operand of
`compDiv`: a zero divisor produces the type maximum, `0/0` produces `0`. -/
def divUInt32 (a b : Nat) : Nat :=
  if b ≠ 0 then a / b else if a = 0 then 0 else uint32Max

/-- Modelled from the spec: an IEEE-754 floating-point value as `compDiv`
observes it — a finite value (embedded exactly as a rational; rounding is not
exercised by the divide-by-zero claims), a signed infinity, or NaN. -/
inductive FVal where
  | fin (q : Rat)
  | inf (neg : Bool)
  | nan
deriving DecidableEq, Repr

/-- `std::isinf`. -/
def FVal.isinf : FVal → Bool
  | .inf _ => true
  | _ => false

/-- `std::isnan`. -/
def FVal.isnan : FVal → Bool
  | .nan => true
  | _ => false

/-- Modelled from the spec: IEEE-754 division as used by the floating-point
`compDiv` operand: a nonzero finite value divided by zero gives the signed
infinity, `0/0` gives NaN; the remaining cases follow IEEE-754 (signed zeros
are not distinguished, they are not exercised here). -/
def fdiv : FVal → FVal → FVal
  | .nan, _ => .nan
  | _, .nan => .nan
  | .fin a, .fin b =>
    if b = 0 then (if a = 0 then .nan else .inf (decide (a < 0))) else .fin (a / b)
  | .fin _, .inf _ => .fin 0
  | .inf s, .fin b => .inf (s != decide (b < 0))
  | .inf _, .inf _ => .nan

/-- Tree A of `testCompDivByZero` (integer case): background 1, active voxels
`1, 1, -1, -1, 0` at `(0,0,0), (1,1,1), (2,2,2), (3,3,3), (4,4,4)`. -/
def divZeroIntA : VTree Int :=
  (((((VTree.mk0 1).setActiveOn ⟨0, 0, 0⟩).setActiveOn ⟨1, 1, 1⟩).setValueOn
      ⟨2, 2, 2⟩ (-1)).setValueOn ⟨3, 3, 3⟩ (-1)).setValueOn ⟨4, 4, 4⟩ 0

/-- Tree B of `testCompDivByZero` (integer case): background 0, voxels at
`(1,1,1)` and `(3,3,3)` activated at the background value. -/
def divZeroIntB : VTree Int :=
  ((VTree.mk0 0).setActiveOn ⟨1, 1, 1⟩).setActiveOn ⟨3, 3, 3⟩

/-- Tree A of `testCompDivByZero` (unsigned case). -/
def divZeroUIntA : VTree Nat :=
  (((VTree.mk0 1).setActiveOn ⟨0, 0, 0⟩).setActiveOn ⟨1, 1, 1⟩).setValueOn ⟨2, 2, 2⟩ 0

/-- Tree B of `testCompDivByZero` (unsigned case). -/
def divZeroUIntB : VTree Nat :=
  (VTree.mk0 0).setActiveOn ⟨1, 1, 1⟩

/-- Tree A of `testCompDivByZero` (floating-point case). -/
def divZeroFloatA : VTree FVal :=
  (((((VTree.mk0 (FVal.fin 1)).setActiveOn ⟨0, 0, 0⟩).setActiveOn
      ⟨1, 1, 1⟩).setValueOn ⟨2, 2, 2⟩ (FVal.fin (-1))).setValueOn ⟨3, 3, 3⟩
      (FVal.fin (-1))).setValueOn ⟨4, 4, 4⟩ (FVal.fin 0)

/-- Tree B of `testCompDivByZero` (floating-point case). -/
def divZeroFloatB : VTree FVal :=
  ((VTree.mk0 (FVal.fin 0)).setActiveOn ⟨1, 1, 1⟩).setActiveOn ⟨3, 3, 3⟩

/-- C4 counterexample: in the `testCompDivByZero` configuration `-1/0` does
NOT produce the integer type's minimum: the composited tree holds
`-Int32::max() = -2147483647` at `(2,2,2)`, one above the minimum
`-2147483648` the claim names. -/
theorem compDiv_negative_by_zero_is_not_type_minimum :
    (compDiv divInt32 divZeroIntA divZeroIntB).getValue ⟨2, 2, 2⟩ = -2147483647 ∧
    int32Min = -2147483648 ∧
    (compDiv divInt32 divZeroIntA divZeroIntB).getValue ⟨2, 2, 2⟩ ≠ int32Min := by
  refine ⟨by decide, by decide, by decide⟩

/-- C4 (amended).  compDiv division-by-zero semantics: for integer-valued
trees the `testCompDivByZero` configuration produces the type maximum for
`1/0`, the NEGATED maximum `-Int32::max() = -2147483647` (not the type
minimum) for `-1/0`, and `0` for `0/0`; for unsigned trees `1/0` produces the
type maximum and `0/0` produces `0`; for floating-point trees the same
configuration produces `+inf`, `-inf` and `NaN` respectively.  All cases are
total value computations — no error is raised. -/
theorem compDiv_divide_by_zero_semantics :
    ((compDiv divInt32 divZeroIntA divZeroIntB).getValue ⟨0, 0, 0⟩ = int32Max ∧
     (compDiv divInt32 divZeroIntA divZeroIntB).getValue ⟨1, 1, 1⟩ = int32Max ∧
     (compDiv divInt32 divZeroIntA divZeroIntB).getValue ⟨2, 2, 2⟩ = -int32Max ∧
     (compDiv divInt32 divZeroIntA divZeroIntB).getValue ⟨3, 3, 3⟩ = -int32Max ∧
     (compDiv divInt32 divZeroIntA divZeroIntB).getValue ⟨4, 4, 4⟩ = 0) ∧
    ((compDiv divUInt32 divZeroUIntA divZeroUIntB).getValue ⟨0, 0, 0⟩ = uint32Max ∧
     (compDiv divUInt32 divZeroUIntA divZeroUIntB).getValue ⟨1, 1, 1⟩ = uint32Max ∧
     (compDiv divUInt32 divZeroUIntA divZeroUIntB).getValue ⟨2, 2, 2⟩ = 0) ∧
    ((compDiv fdiv divZeroFloatA divZeroFloatB).getValue ⟨0, 0, 0⟩ = FVal.inf false ∧
     (compDiv fdiv divZeroFloatA divZeroFloatB).getValue ⟨1, 1, 1⟩ = FVal.inf false ∧
     (compDiv fdiv divZeroFloatA divZeroFloatB).getValue ⟨2, 2, 2⟩ = FVal.inf true ∧
     (compDiv fdiv divZeroFloatA divZeroFloatB).getValue ⟨3, 3, 3⟩ = FVal.inf true ∧
     ((compDiv fdiv divZeroFloatA divZeroFloatB).getValue ⟨0, 0, 0⟩).isinf = true ∧
     ((compDiv fdiv divZeroFloatA divZeroFloatB).getValue ⟨2, 2, 2⟩).isinf = true ∧
     ((compDiv fdiv divZeroFloatA divZeroFloatB).getValue ⟨4, 4, 4⟩).isnan = true) := by
  refine ⟨⟨?_, ?_, ?_, ?_, ?_⟩, ⟨?_, ?_, ?_⟩, ⟨?_, ?_, ?_, ?_, ?_, ?_, ?_⟩⟩ <;> decide

/-! ## Error taxonomy: combine2 type mismatch, CSG level-set precondition -/

/-- Modelled from the spec (§7 error taxonomy): the error kinds the tree-level
APIs signal, each carrying a descriptive message. -/
inductive VdbError where
  | typeError (msg : String)
  | valueError (msg : String)
deriving DecidableEq, Repr

/-- Whether a result failed with a `TypeError`. -/
def isTypeError {A : Type} : Except VdbError A → Bool
  | .error (.typeError _) => true
  | _ => false

/-- Whether a result failed with a `ValueError`. -/
def isValueError {A : Type} : Except VdbError A → Bool
  | .error (.valueError _) => true
  | _ => false

/-- A 3-vector value (`Vec3d`), the value type of a vector-valued tree. -/
structure Vec3R where
  vx : Rat
  vy : Rat
  vz : Rat
deriving DecidableEq, Repr

/-- A tree whose value type is known only dynamically: the second operand of
`combine2` as seen from a scalar output tree. -/
inductive DynTree where
  | scalarT (t : VTree Rat)
  | vectorT (t : VTree Vec3R)

/-- Modelled from the spec: `outTree.combine2(a, b, f)` with a scalar (float)
output tree — combining a vector-valued tree into a scalar result tree MUST
raise a TypeError rather than silently truncate (a scalar-valued second
operand combines fine, into the union topology). -/
def VTree.combine2 (outT : VTree Rat) (a : VTree Rat) (b : DynTree)
    (f : Rat → Rat → Rat) : Except VdbError (VTree Rat) :=
  match b with
  | .scalarT bt => .ok (combineTrees f a bt)
  | .vectorT _ =>
    .error (.typeError "Cannot combine a Vec3d tree into a float tree")

/-- C6.  Combine type error: `combine2` on a scalar (float) output tree with
a vector-valued second operand fails with a TypeError — it never produces a
(truncated) result tree — for every output tree, first operand, vector tree
and functor; a scalar second operand, by contrast, succeeds. -/
theorem combine2_vector_into_scalar_typeError (outT a : VTree Rat) (vt : VTree Vec3R)
    (st : VTree Rat) (f : Rat → Rat → Rat) :
    (isTypeError (outT.combine2 a (DynTree.vectorT vt) f) = true ∧
     ∀ r : VTree Rat, outT.combine2 a (DynTree.vectorT vt) f ≠ .ok r) ∧
    isTypeError (outT.combine2 a (DynTree.scalarT st) f) = false := by
  exact ⟨⟨rfl, fun r h => by simp [VTree.combine2] at h⟩, rfl⟩

/-- Modelled from the spec: the level-set precondition shared by the CSG
operations — they work only on level sets with nonzero inside and outside
values, so a tree whose background is the zero value of its type is rejected
with a ValueError before any computation. -/
def csgCheck {V : Type} [DecidableEq V] (zero : V) (a b : VTree V) :
    Except VdbError Unit :=
  if a.background = zero ∨ b.background = zero then
    .error (.valueError "expected level set, got a tree with a zero background")
  else .ok ()

/-- Modelled from the spec: `tools::csgUnion` for boolean-valued trees: the
level-set precondition is checked first; the combination itself (set union of
the two inputs) is reached only when both trees pass. -/
def csgUnion (a b : VTree Bool) : Except VdbError (VTree Bool) :=
  match csgCheck false a b with
  | .error e => .error e
  | .ok _ => .ok (combineTrees (fun x y => x || y) a b)

/-- Modelled from the spec: `tools::csgIntersection` for boolean-valued
trees, with the same level-set precondition. -/
def csgIntersection (a b : VTree Bool) : Except VdbError (VTree Bool) :=
  match csgCheck false a b with
  | .error e => .error e
  | .ok _ => .ok (combineTrees (fun x y => x && y) a b)

/-- Modelled from the spec: `tools::csgDifference` for boolean-valued trees,
with the same level-set precondition. -/
def csgDifference (a b : VTree Bool) : Except VdbError (VTree Bool) :=
  match csgCheck false a b with
  | .error e => .error e
  | .ok _ => .ok (combineTrees (fun x y => x && !y) a b)

/-- C7.  CSG precondition: on a pair of boolean-valued trees (background
`false`, hence not level sets — their inside/outside values cannot be
nonzero), `csgUnion`, `csgIntersection` and `csgDifference` each fail with a
ValueError instead of computing a result. -/
theorem csg_on_bool_trees_valueError (a b : VTree Bool)
    (ha : a.background = false) :
    (isValueError (csgUnion a b) = true ∧
     ∀ r : VTree Bool, csgUnion a b ≠ .ok r) ∧
    (isValueError (csgIntersection a b) = true ∧
     ∀ r : VTree Bool, csgIntersection a b ≠ .ok r) ∧
    (isValueError (csgDifference a b) = true ∧
     ∀ r : VTree Bool, csgDifference a b ≠ .ok r) := by
  have hc : csgCheck false a b
      = .error (.valueError "expected level set, got a tree with a zero background") := by
    rw [csgCheck, if_pos (Or.inl ha)]
  refine ⟨⟨?_, ?_⟩, ⟨?_, ?_⟩, ⟨?_, ?_⟩⟩ <;>
    simp [csgUnion, csgIntersection, csgDifference, hc, isValueError]

/-- Witness for C7: two copies of a boolean sphere-topology stand-in (a bool
tree with one active voxel), background `false` as `BoolGrid::create()`
produces. -/
theorem csg_on_bool_trees_valueError_witness :
    (((VTree.mk0 false).setValue ⟨1, 2, 3⟩ true).background = false) ∧
    ((isValueError (csgUnion ((VTree.mk0 false).setValue ⟨1, 2, 3⟩ true)
        ((VTree.mk0 false).setValue ⟨1, 2, 3⟩ true)) = true ∧
      ∀ r : VTree Bool, csgUnion ((VTree.mk0 false).setValue ⟨1, 2, 3⟩ true)
        ((VTree.mk0 false).setValue ⟨1, 2, 3⟩ true) ≠ .ok r) ∧
     (isValueError (csgIntersection ((VTree.mk0 false).setValue ⟨1, 2, 3⟩ true)
        ((VTree.mk0 false).setValue ⟨1, 2, 3⟩ true)) = true ∧
      ∀ r : VTree Bool, csgIntersection ((VTree.mk0 false).setValue ⟨1, 2, 3⟩ true)
        ((VTree.mk0 false).setValue ⟨1, 2, 3⟩ true) ≠ .ok r) ∧
     (isValueError (csgDifference ((VTree.mk0 false).setValue ⟨1, 2, 3⟩ true)
        ((VTree.mk0 false).setValue ⟨1, 2, 3⟩ true)) = true ∧
      ∀ r : VTree Bool, csgDifference ((VTree.mk0 false).setValue ⟨1, 2, 3⟩ true)
        ((VTree.mk0 false).setValue ⟨1, 2, 3⟩ true) ≠ .ok r)) :=
  ⟨rfl, csg_on_bool_trees_valueError ((VTree.mk0 false).setValue ⟨1, 2, 3⟩ true)
    ((VTree.mk0 false).setValue ⟨1, 2, 3⟩ true) rfl⟩

/-! ## ValueAccessor: cached access is equivalent to direct tree access -/

/-- Modelled from the spec: a `ValueAccessor` bound to a tree — it holds a
non-owning reference to the last leaf node visited (identified here by the
leaf's origin, through which reads resolve into the live tree, exactly as the
accessor's raw node pointer does), or nothing when no node is cached. -/
structure Accessor (V : Type) where
  tree : VTree V
  cache : Option Coord

/-- Construct an accessor bound to a tree; nothing is cached yet. -/
def Accessor.mkFor {V : Type} (t : VTree V) : Accessor V := ⟨t, none⟩

/-- Re-descend from the root: resolve the coordinate against the tree and
cache the leaf encountered (a coordinate answered by the background at the
root caches nothing at leaf level). -/
def Accessor.descendGet {V : Type} (s : Accessor V) (c : Coord) : V × Accessor V :=
  match findLeaf s.tree.leaves (leafOrigin c) with
  | some lf => (lf.buf (localCoord c), ⟨s.tree, some (leafOrigin c)⟩)
  | none => (s.tree.background, s)

/-- Modelled from the spec: `ValueAccessor::getValue(coord)` — the cached
node is usable iff its origin-masked region contains the coordinate; then the
read goes through the cached node pointer, otherwise the accessor re-descends
from the root and refreshes the cache. -/
def Accessor.getValue {V : Type} (s : Accessor V) (c : Coord) : V × Accessor V :=
  match s.cache with
  | some o =>
    if leafOrigin c = o then
      match findLeaf s.tree.leaves o with
      | some lf => (lf.buf (localCoord c), s)
      | none => s.descendGet c
    else s.descendGet c
  | none => s.descendGet c

/-- The same cache discipline for the active-state read
(`ValueAccessor::isValueOn`). -/
def Accessor.accIsOn {V : Type} (s : Accessor V) (c : Coord) : Bool × Accessor V :=
  match s.cache with
  | some o =>
    if leafOrigin c = o then
      match findLeaf s.tree.leaves o with
      | some lf => (lf.mask (localCoord c), s)
      | none =>
        match findLeaf s.tree.leaves (leafOrigin c) with
        | some lf => (lf.mask (localCoord c), ⟨s.tree, some (leafOrigin c)⟩)
        | none => (false, s)
    else
      match findLeaf s.tree.leaves (leafOrigin c) with
      | some lf => (lf.mask (localCoord c), ⟨s.tree, some (leafOrigin c)⟩)
      | none => (false, s)
  | none =>
    match findLeaf s.tree.leaves (leafOrigin c) with
    | some lf => (lf.mask (localCoord c), ⟨s.tree, some (leafOrigin c)⟩)
    | none => (false, s)

/-- Modelled from the spec: `ValueAccessor::setValue(coord, v)` — the write
descends through the cache, mutates the underlying tree in place, and leaves
the written leaf cached. -/
def Accessor.setValue {V : Type} (s : Accessor V) (c : Coord) (v : V) : Accessor V :=
  ⟨s.tree.setValue c v, some (leafOrigin c)⟩

/-- One get/set operation of an interleaved sequence.  `direct = true` means
the call goes through the Tree's own API, `direct = false` through the
ValueAccessor bound to it. -/
inductive AccOp (V : Type) where
  | get (direct : Bool) (c : Coord)
  | set (direct : Bool) (c : Coord) (v : V)
  | isOn (direct : Bool) (c : Coord)
  | probe (direct : Bool) (c : Coord)

/-- The observable result of one operation. -/
inductive OpResult (V : Type) where
  | val (v : V)
  | flag (b : Bool)
  | probed (b : Bool) (v : V)
  | done
deriving DecidableEq, Repr

/-- Run one operation against the tree's direct API (the reference
semantics; the `direct` flag plays no role here). -/
def VTree.applyOp {V : Type} (t : VTree V) : AccOp V → OpResult V × VTree V
  | .get _ c => (.val (t.getValue c), t)
  | .set _ c v => (.done, t.setValue c v)
  | .isOn _ c => (.flag (t.isValueOn c), t)
  | .probe _ c => (.probed (t.isValueOn c) (t.getValue c), t)

/-- Run one operation of the interleaved sequence: accessor operations use
the cache, direct operations call the tree API and leave the accessor's
cache as it is (the tree does not proactively patch registered accessors on
value writes). -/
def Accessor.applyOp {V : Type} (s : Accessor V) : AccOp V → OpResult V × Accessor V
  | .get false c =>
    match s.getValue c with
    | (v, s') => (.val v, s')
  | .get true c => (.val (s.tree.getValue c), s)
  | .set false c v => (.done, s.setValue c v)
  | .set true c v => (.done, ⟨s.tree.setValue c v, s.cache⟩)
  | .isOn false c =>
    match s.accIsOn c with
    | (b, s') => (.flag b, s')
  | .isOn true c => (.flag (s.tree.isValueOn c), s)
  | .probe false c =>
    match s.accIsOn c with
    | (b, s') =>
      match s'.getValue c with
      | (v, s'') => (.probed b v, s'')
  | .probe true c => (.probed (s.tree.isValueOn c) (s.tree.getValue c), s)

/-- Run a sequence against the tree's direct API, collecting every result. -/
def VTree.runOps {V : Type} (t : VTree V) : List (AccOp V) → List (OpResult V) × VTree V
  | [] => ([], t)
  | op :: ops =>
    match t.applyOp op with
    | (r, t') =>
      match t'.runOps ops with
      | (rs, t'') => (r :: rs, t'')

/-- Run the same sequence with the accessor in the loop. -/
def Accessor.runOps {V : Type} (s : Accessor V) : List (AccOp V) → List (OpResult V) × Accessor V
  | [] => ([], s)
  | op :: ops =>
    match s.applyOp op with
    | (r, s') =>
      match s'.runOps ops with
      | (rs, s'') => (r :: rs, s'')

theorem Accessor.getValue_spec {V : Type} (s : Accessor V) (c : Coord) :
    (s.getValue c).1 = s.tree.getValue c ∧ (s.getValue c).2.tree = s.tree := by
  obtain ⟨tr, κ⟩ := s
  cases κ with
  | none =>
    simp only [Accessor.getValue, Accessor.descendGet, VTree.getValue]
    cases findLeaf tr.leaves (leafOrigin c) <;> exact ⟨rfl, rfl⟩
  | some o =>
    by_cases ho : leafOrigin c = o
    · subst ho
      simp only [Accessor.getValue, if_pos]
      cases hf : findLeaf tr.leaves (leafOrigin c) with
      | some lf => simp [VTree.getValue, hf]
      | none => simp [Accessor.descendGet, VTree.getValue, hf]
    · simp only [Accessor.getValue, if_neg ho, Accessor.descendGet, VTree.getValue]
      cases findLeaf tr.leaves (leafOrigin c) <;> exact ⟨rfl, rfl⟩

theorem Accessor.accIsOn_spec {V : Type} (s : Accessor V) (c : Coord) :
    (s.accIsOn c).1 = s.tree.isValueOn c ∧ (s.accIsOn c).2.tree = s.tree := by
  obtain ⟨tr, κ⟩ := s
  cases κ with
  | none =>
    simp only [Accessor.accIsOn, VTree.isValueOn]
    cases findLeaf tr.leaves (leafOrigin c) <;> exact ⟨rfl, rfl⟩
  | some o =>
    by_cases ho : leafOrigin c = o
    · subst ho
      simp only [Accessor.accIsOn, if_pos]
      cases hf : findLeaf tr.leaves (leafOrigin c) with
      | some lf => simp [VTree.isValueOn, hf]
      | none => simp [VTree.isValueOn, hf]
    · simp only [Accessor.accIsOn, if_neg ho, VTree.isValueOn]
      cases findLeaf tr.leaves (leafOrigin c) <;> exact ⟨rfl, rfl⟩

theorem Accessor.applyOp_spec {V : Type} (s : Accessor V) (op : AccOp V) :
    (s.applyOp op).1 = (s.tree.applyOp op).1 ∧
    (s.applyOp op).2.tree = (s.tree.applyOp op).2 := by
  cases op with
  | get d c =>
    cases d with
    | false =>
      have h := Accessor.getValue_spec s c
      simp only [Accessor.applyOp, VTree.applyOp]
      exact ⟨congrArg OpResult.val h.1, h.2⟩
    | true => exact ⟨rfl, rfl⟩
  | set d c v =>
    cases d with
    | false => exact ⟨rfl, rfl⟩
    | true => exact ⟨rfl, rfl⟩
  | isOn d c =>
    cases d with
    | false =>
      have h := Accessor.accIsOn_spec s c
      simp only [Accessor.applyOp, VTree.applyOp]
      exact ⟨congrArg OpResult.flag h.1, h.2⟩
    | true => exact ⟨rfl, rfl⟩
  | probe d c =>
    cases d with
    | false =>
      have h1 := Accessor.accIsOn_spec s c
      have h2 := Accessor.getValue_spec (s.accIsOn c).2 c
      simp only [Accessor.applyOp, VTree.applyOp]
      refine ⟨?_, ?_⟩
      · rw [h1.1, h2.1, h1.2]
      · rw [h2.2, h1.2]
    | true => exact ⟨rfl, rfl⟩

theorem Accessor.runOps_spec {V : Type} (ops : List (AccOp V)) (s : Accessor V) :
    (s.runOps ops).1 = (s.tree.runOps ops).1 ∧
    (s.runOps ops).2.tree = (s.tree.runOps ops).2 := by
  induction ops generalizing s with
  | nil => exact ⟨rfl, rfl⟩
  | cons op ops ih =>
    have hstep := Accessor.applyOp_spec s op
    have hrest := ih (s.applyOp op).2
    rw [Accessor.runOps, VTree.runOps]
    constructor
    · show (s.applyOp op).1 :: ((s.applyOp op).2.runOps ops).1
          = (s.tree.applyOp op).1 :: (((s.tree.applyOp op).2).runOps ops).1
      rw [hstep.1, hrest.1, hstep.2]
    · show ((s.applyOp op).2.runOps ops).2.tree = ((s.tree.applyOp op).2.runOps ops).2
      rw [hrest.2, hstep.2]

/-- C3.  Accessor equivalence: for any sequence of get/set operations,
arbitrarily interleaved between the Tree's direct API and a ValueAccessor
bound to that tree, `getValue`, `setValue`, `isValueOn` and `probeValue`
through the accessor return results identical to the corresponding direct
Tree calls, and the tree passes through identical intermediate states (the
equality holds after every prefix of the sequence). -/
theorem valueAccessor_equivalent_to_tree {V : Type} (ops : List (AccOp V)) (t : VTree V) :
    ((Accessor.mkFor t).runOps ops).1 = (t.runOps ops).1 ∧
    ∀ n : Nat, ((Accessor.mkFor t).runOps (ops.take n)).2.tree
      = (t.runOps (ops.take n)).2 :=
  ⟨(Accessor.runOps_spec ops (Accessor.mkFor t)).1,
   fun n => (Accessor.runOps_spec (ops.take n) (Accessor.mkFor t)).2⟩
